import Mathlib

/-!
Verification of the search-algorithm benchmarking programs.

The four Rust programs each contain a search function over a slice of `i32`
and a sorted-random-array generator.  We embed them shallowly: slices become
`List Int`, `usize` indices become `Nat`, `isize` becomes `Int`, and the
fallible parts (panics) become `Option`/`none`.  Indexing `arr[i]` is
rendered as `arr.getD i 0`; in every reachable call of the loops below the
index is in bounds, so the default is never consulted (we prove bounds where
a claim depends on the indexed value).
-/

namespace RustVsPython

/-- From src/A/Searching/lin_search/src/main.rs, `linear_search`:
iterates over the slice in order and returns the first index whose value
equals the target, else `None`. -/
def linear_search (arr : List Int) (target : Int) : Option Nat :=
  match arr with
  | [] => none
  | x :: xs =>
      if x = target then some 0
      else (linear_search xs target).map (· + 1)

/-- Loop of `binary_search` from
src/SEARCHING_PREPROCESSING/Searching/bin_search/src/main.rs.
`low`, `high` are the Rust `isize` variables (so `high` starts at `-1` for an
empty slice).  Rust's `/` on `isize` truncates toward zero; on every computed
midpoint `low + high ≥ 0`, where truncation and Lean's floor division agree,
so we write `(low + high) / 2` as the source does. -/
def binLoop (arr : List Int) (target : Int) (low high : Int) : Option Nat :=
  if low ≤ high then
    if arr.getD ((low + high) / 2).toNat 0 = target then some ((low + high) / 2).toNat
    else if arr.getD ((low + high) / 2).toNat 0 < target then
      binLoop arr target ((low + high) / 2 + 1) high
    else binLoop arr target low ((low + high) / 2 - 1)
  else none
termination_by (high + 1 - low).toNat
decreasing_by
  all_goals omega

/-- `binary_search` from
src/SEARCHING_PREPROCESSING/Searching/bin_search/src/main.rs:
`let (mut low, mut high) = (0, arr.len() as isize - 1); ...`. -/
def binary_search (arr : List Int) (target : Int) : Option Nat :=
  binLoop arr target 0 ((arr.length : Int) - 1)

/-- The final linear scan of `jump_search` (src/A/Searching/jump_search):
`for i in start..stop { if arr[i] == target { return Some(i); } }`. -/
def jumpScan (arr : List Int) (target : Int) (i stop : Nat) : Option Nat :=
  if i < stop then
    if arr.getD i 0 = target then some i
    else jumpScan arr target (i + 1) stop
  else none
termination_by stop - i

/-- The block-advance loop of `jump_search` (src/A/Searching/jump_search):
`while prev < n && arr[prev.min(n - 1)] < target { prev += step; }`,
returning the final value of `prev`.  The loop terminates only because
`step ≥ 1`, which we record as an explicit hypothesis (`jump_search` always
calls it with `step = ⌊√n⌋ ≥ 1` for `n ≥ 1`). -/
def jumpLoop (arr : List Int) (target : Int) (step : Nat)
    (hstep : 0 < step) (prev : Nat) : Nat :=
  if prev < arr.length ∧ arr.getD (min prev (arr.length - 1)) 0 < target then
    jumpLoop arr target step hstep (prev + step)
  else prev
termination_by arr.length - prev
decreasing_by omega

/-- Number of iterations executed by the block-advance loop of
`jump_search`, defined by the same recursion as `jumpLoop`. -/
def jumpIters (arr : List Int) (target : Int) (step : Nat)
    (hstep : 0 < step) (prev : Nat) : Nat :=
  if prev < arr.length ∧ arr.getD (min prev (arr.length - 1)) 0 < target then
    jumpIters arr target step hstep (prev + step) + 1
  else 0
termination_by arr.length - prev
decreasing_by omega

/-- `jump_search` from src/A/Searching/jump_search/src/main.rs.
`step = (n as f64).sqrt() as usize` is modelled as `Nat.sqrt n` (for the
slice lengths involved in the claims both compute `⌊√n⌋`).  When `n = 0` the
`while` guard `prev < n` is false at once (short-circuiting before the
`n - 1` index), `start = 0.saturating_sub(step) = 0` and the scan range
`0..min 0 0` is empty, so the function returns `none`; the `n = 0` branch
below reproduces exactly that.  `prev.saturating_sub(step)` is `Nat`
truncated subtraction. -/
def jump_search (arr : List Int) (target : Int) : Option Nat :=
  let n := arr.length
  if hn : n = 0 then none
  else
    let step := Nat.sqrt n
    let prev := jumpLoop arr target step (Nat.sqrt_pos.mpr (Nat.pos_of_ne_zero hn)) 0
    jumpScan arr target (prev - step) (min prev n)

/-- Auxiliary bound used for the termination of `intLoop`: a probe offset
`a * t / d` with `t ≤ d` never exceeds `a`. -/
theorem mul_div_le_self_of_le (a t d : Nat) (h : t ≤ d) : a * t / d ≤ a := by
  rcases Nat.eq_zero_or_pos d with hd | hd
  · subst hd
    simp
  · calc a * t / d ≤ a * d / d := Nat.div_le_div_right (Nat.mul_le_mul_left a h)
    _ = a := Nat.mul_div_cancel a hd

/-- The probe position of `interpolation_search`
(src/SEARCHING_PREPROCESSING/Searching/int_search/src/main.rs):
`let pos = low + (((high - low) as f64 * (target - arr[low]) as f64 / (arr[high] - arr[low]) as f64) as usize);`
modelled with exact integer arithmetic.  Under the loop guard
`target - arr[low] ≥ 0`; Rust's `as usize` on a non-negative float truncates
(our floor division) and saturates to `0` on a negative quotient, which
`Int.toNat` of a negative difference reproduces (`Nat` division by `0`
is `0`). -/
def probePos (arr : List Int) (target : Int) (low high : Nat) : Nat :=
  low + (high - low) * (target - arr.getD low 0).toNat
      / (arr.getD high 0 - arr.getD low 0).toNat

/-- The probe never moves left of `low`. -/
theorem le_probePos (arr : List Int) (target : Int) (low high : Nat) :
    low ≤ probePos arr target low high :=
  Nat.le_add_right low _

/-- Under the loop guard the probe never moves right of `high`. -/
theorem probePos_le (arr : List Int) (target : Int) (low high : Nat)
    (hlh : low ≤ high) (h2 : target ≤ arr.getD high 0) :
    probePos arr target low high ≤ high := by
  have hle : (target - arr.getD low 0).toNat
      ≤ (arr.getD high 0 - arr.getD low 0).toNat := by omega
  have hd := mul_div_le_self_of_le (high - low)
    (target - arr.getD low 0).toNat (arr.getD high 0 - arr.getD low 0).toNat hle
  unfold probePos
  omega

/-- Loop of `interpolation_search` from
src/SEARCHING_PREPROCESSING/Searching/int_search/src/main.rs:
`while low <= high && arr[low] <= target && arr[high] >= target { ... }`,
with the probe position `pos` rendered by `probePos`. -/
def intLoop (arr : List Int) (target : Int) (low high : Nat) : Option Nat :=
  if low ≤ high ∧ arr.getD low 0 ≤ target ∧ target ≤ arr.getD high 0 then
    if arr.getD high 0 = arr.getD low 0 then
      if arr.getD low 0 = target then some low else none
    else
      if arr.getD (probePos arr target low high) 0 = target then
        some (probePos arr target low high)
      else if arr.getD (probePos arr target low high) 0 < target then
        intLoop arr target (probePos arr target low high + 1) high
      else if probePos arr target low high = 0 then none
      else intLoop arr target low (probePos arr target low high - 1)
  else none
termination_by high + 1 - low
decreasing_by
  all_goals
    have hg : low ≤ high ∧ arr.getD low 0 ≤ target ∧ target ≤ arr.getD high 0 := by
      assumption
  all_goals
    have h1 := le_probePos arr target low high
  all_goals
    have h2 := probePos_le arr target low high hg.1 hg.2.2
  all_goals omega

/-- `interpolation_search` from
src/SEARCHING_PREPROCESSING/Searching/int_search/src/main.rs.
The source starts with `let mut high = arr.len() - 1;` on a `usize`: for an
empty slice this underflows and the subsequent `arr[low]` access is out of
bounds, so the call panics.  The outer `Option` records that: `none` is the
panic, `some r` is a normal return with result `r`.  For a non-empty slice
every index touched by `intLoop` is in bounds, so no further panic path
exists. -/
def interpolation_search (arr : List Int) (target : Int) : Option (Option Nat) :=
  if arr.isEmpty then none
  else some (intLoop arr target 0 (arr.length - 1))

/-- Models `rng.gen_range(lo..hi)` from the `rand` crate, as used by
`generate_sorted_random_array`: draws a value uniformly in `[lo, hi)`, and
panics when the range is empty (`lo ≥ hi`).  The PRNG is made explicit as
the draw `r`, reduced into the range; `none` is the empty-range panic. -/
def gen_range (lo hi : Int) (r : Nat) : Option Int :=
  if lo < hi then some (lo + ((r % (hi - lo).toNat : Nat) : Int)) else none

/-- `generate_sorted_random_array` (identical in all four programs):
`let mut arr: Vec<i32> = (0..n).map(|_| rng.gen_range(MIN..MAX)).collect();
arr.sort(); arr`.  The thread RNG is modelled as an explicit stream `rng` of
draws; `MIN`/`MAX` (constants in the source) are the parameters `mn`/`mx`;
`Vec::sort` is a stable ascending sort, modelled by `List.mergeSort`.  The
result is `none` exactly when some `gen_range` call panics. -/
def generate_sorted_random_array (n : Nat) (mn mx : Int) (rng : Nat → Nat) :
    Option (List Int) :=
  ((List.range n).mapM fun i => gen_range mn mx (rng i)).map
    fun draws => draws.mergeSort fun a b => decide (a ≤ b)

/-! ### Helper lemmas -/

/-- In a non-decreasing list, values read through `getD` are monotone in the
index (for in-bounds indices). -/
theorem sorted_getD_mono {arr : List Int} (hs : List.Sorted (· ≤ ·) arr)
    {i j : Nat} (hij : i ≤ j) (hj : j < arr.length) :
    arr.getD i 0 ≤ arr.getD j 0 := by
  rcases Nat.eq_or_lt_of_le hij with rfl | hlt
  · exact le_refl _
  · have hi : i < arr.length := Nat.lt_trans hlt hj
    rw [List.getD_eq_getElem arr 0 hi, List.getD_eq_getElem arr 0 hj]
    have h2 := @List.Sorted.rel_get_of_lt Int (· ≤ ·) arr hs ⟨i, hi⟩ ⟨j, hj⟩ hlt
    simpa using h2

/-- An in-bounds `getD` read is a member of the list. -/
theorem getD_mem {arr : List Int} {i : Nat} (hi : i < arr.length) :
    arr.getD i 0 ∈ arr := by
  rw [List.getD_eq_getElem arr 0 hi]
  exact List.getElem_mem hi

/-- Soundness of the binary-search loop: a returned index is in bounds and
carries the target value (for any list, sorted or not). -/
theorem binLoop_sound (arr : List Int) (target : Int) :
    ∀ (low high : Int), 0 ≤ low → high < (arr.length : Int) →
      ∀ j, binLoop arr target low high = some j →
        j < arr.length ∧ arr.getD j 0 = target := by
  intro low high
  induction low, high using binLoop.induct arr target with
  | case1 low high hle hv =>
    intro h0 hh j hj
    rw [binLoop.eq_def, if_pos hle, if_pos hv] at hj
    obtain rfl : ((low + high) / 2).toNat = j := Option.some.inj hj
    constructor
    · have hmid : (low + high) / 2 ≤ high := by omega
      omega
    · exact hv
  | case2 low high hle hv hvlt ih =>
    intro h0 hh j hj
    rw [binLoop.eq_def, if_pos hle, if_neg hv, if_pos hvlt] at hj
    have hmid : low ≤ (low + high) / 2 := by omega
    exact ih (by omega) hh j hj
  | case3 low high hle hv hvge ih =>
    intro h0 hh j hj
    rw [binLoop.eq_def, if_pos hle, if_neg hv, if_neg hvge] at hj
    have hmid : (low + high) / 2 ≤ high := by omega
    exact ih h0 (by omega) j hj
  | case4 low high hle =>
    intro h0 hh j hj
    rw [binLoop.eq_def, if_neg hle] at hj
    exact Option.noConfusion hj

/-- Completeness of the binary-search loop on a sorted list: if the target
occurs at an index inside the window, the loop finds some index. -/
theorem binLoop_isSome (arr : List Int) (target : Int)
    (hs : List.Sorted (· ≤ ·) arr) :
    ∀ (low high : Int), 0 ≤ low → high < (arr.length : Int) →
      (∃ i : Nat, low ≤ (i : Int) ∧ (i : Int) ≤ high ∧ arr.getD i 0 = target) →
      ∃ j, binLoop arr target low high = some j := by
  intro low high
  induction low, high using binLoop.induct arr target with
  | case1 low high hle hv =>
    intro h0 hh _
    refine ⟨((low + high) / 2).toNat, ?_⟩
    rw [binLoop.eq_def, if_pos hle, if_pos hv]
  | case2 low high hle hv hvlt ih =>
    intro h0 hh hex
    obtain ⟨i, hi1, hi2, hival⟩ := hex
    have hmid1 : low ≤ (low + high) / 2 := by omega
    have hmid2 : (low + high) / 2 ≤ high := by omega
    have hmemlt : (low + high) / 2 + 1 ≤ (i : Int) := by
      by_contra hcon
      have hile : i ≤ ((low + high) / 2).toNat := by omega
      have hmlen : ((low + high) / 2).toNat < arr.length := by omega
      have := sorted_getD_mono hs hile hmlen
      omega
    obtain ⟨j, hj⟩ := ih (by omega) hh ⟨i, hmemlt, hi2, hival⟩
    refine ⟨j, ?_⟩
    rw [binLoop.eq_def, if_pos hle, if_neg hv, if_pos hvlt]
    exact hj
  | case3 low high hle hv hvge ih =>
    intro h0 hh hex
    obtain ⟨i, hi1, hi2, hival⟩ := hex
    have hmid1 : low ≤ (low + high) / 2 := by omega
    have hmid2 : (low + high) / 2 ≤ high := by omega
    have hmemgt : (i : Int) ≤ (low + high) / 2 - 1 := by
      by_contra hcon
      have hge : ((low + high) / 2).toNat ≤ i := by omega
      have hilen : i < arr.length := by omega
      have := sorted_getD_mono hs hge hilen
      omega
    obtain ⟨j, hj⟩ := ih h0 (by omega) ⟨i, hi1, hmemgt, hival⟩
    refine ⟨j, ?_⟩
    rw [binLoop.eq_def, if_pos hle, if_neg hv, if_neg hvge]
    exact hj
  | case4 low high hle =>
    intro h0 hh hex
    obtain ⟨i, hi1, hi2, _⟩ := hex
    omega

/-! ### Claim theorems -/

/-- C7: `binary_search` (a `[low, high]` window with floor midpoint,
stopping when `low > high`): on every list sorted in non-decreasing order it
returns `some j` with `arr[j] = target` whenever the target occurs, and
`none` whenever the target does not occur. -/
theorem c7_binary_search_correct :
    ∀ (arr : List Int) (target : Int), List.Sorted (· ≤ ·) arr →
      (target ∈ arr →
        ∃ j, binary_search arr target = some j ∧ j < arr.length ∧
          arr.getD j 0 = target) ∧
      (target ∉ arr → binary_search arr target = none) := by
  intro arr target hs
  constructor
  · intro hmem
    obtain ⟨i, hi, hival⟩ := List.mem_iff_getElem.mp hmem
    have hival' : arr.getD i 0 = target := by
      rw [List.getD_eq_getElem arr 0 hi]
      exact hival
    obtain ⟨j, hj⟩ := binLoop_isSome arr target hs 0 ((arr.length : Int) - 1)
      (le_refl 0) (by omega) ⟨i, by omega, by omega, hival'⟩
    have hsound := binLoop_sound arr target 0 ((arr.length : Int) - 1)
      (le_refl 0) (by omega) j hj
    exact ⟨j, hj, hsound⟩
  · intro hnm
    cases hb : binary_search arr target with
    | none => rfl
    | some j =>
      exfalso
      have hsound := binLoop_sound arr target 0 ((arr.length : Int) - 1)
        (le_refl 0) (by omega) j hb
      exact hnm (hsound.2 ▸ getD_mem hsound.1)

/-- Witness for C7 at the sorted list `[1, 3, 5]`: target `3` is present and
found, target `2` is absent and reported `none`. -/
theorem c7_binary_search_correct_witness :
    (∃ j, binary_search [1, 3, 5] 3 = some j ∧ j < ([1, 3, 5] : List Int).length ∧
      ([1, 3, 5] : List Int).getD j 0 = 3) ∧
    binary_search [1, 3, 5] 2 = none :=
  ⟨(c7_binary_search_correct [1, 3, 5] 3 (by decide)).1 (by decide),
   (c7_binary_search_correct [1, 3, 5] 2 (by decide)).2 (by decide)⟩

/-- C6: `linear_search` returns `some i` exactly when `i` is the smallest
index holding the target, and `none` exactly when the target occurs at no
index; no sortedness assumption is used. -/
theorem c6_linear_search_first_index :
    ∀ (arr : List Int) (target : Int),
      (∀ i : Nat, linear_search arr target = some i ↔
        i < arr.length ∧ arr.getD i 0 = target ∧
          ∀ k, k < i → arr.getD k 0 ≠ target) ∧
      (linear_search arr target = none ↔
        ∀ k, k < arr.length → arr.getD k 0 ≠ target) := by
  intro arr target
  induction arr with
  | nil =>
    constructor
    · intro i
      constructor
      · intro h
        exact Option.noConfusion h
      · rintro ⟨hi, -, -⟩
        simp at hi
    · simp [linear_search]
  | cons x xs ih =>
    obtain ⟨ihs, ihn⟩ := ih
    by_cases hx : x = target
    · constructor
      · intro i
        constructor
        · intro h
          rw [linear_search, if_pos hx] at h
          obtain rfl : 0 = i := Option.some.inj h
          exact ⟨by simp, by simpa using hx, fun k hk => absurd hk (Nat.not_lt_zero k)⟩
        · rintro ⟨hi, hvi, hmin⟩
          rcases Nat.eq_zero_or_pos i with rfl | hpos
          · rw [linear_search, if_pos hx]
          · exact absurd (by simpa using hx) (hmin 0 hpos)
      · constructor
        · intro h
          rw [linear_search, if_pos hx] at h
          exact Option.noConfusion h
        · intro h
          exact absurd (by simpa using hx) (h 0 (by simp))
    · have hstep : linear_search (x :: xs) target = (linear_search xs target).map (· + 1) := by
        rw [linear_search, if_neg hx]
      constructor
      · intro i
        constructor
        · intro h
          rw [hstep] at h
          obtain ⟨j, hj, rfl⟩ := Option.map_eq_some'.mp h
          obtain ⟨h1, h2, h3⟩ := (ihs j).mp hj
          refine ⟨by simpa using Nat.succ_lt_succ h1, by simpa using h2, ?_⟩
          intro k hk
          cases k with
          | zero => simpa using hx
          | succ k =>
            have := h3 k (Nat.lt_of_succ_lt_succ hk)
            simpa using this
        · rintro ⟨hi, hvi, hmin⟩
          cases i with
          | zero => exact absurd (by simpa using hvi) hx
          | succ i =>
            have hrec := (ihs i).mpr
              ⟨by simpa using Nat.lt_of_succ_lt_succ hi, by simpa using hvi,
               fun k hk hkv => hmin (k + 1) (Nat.succ_lt_succ hk) (by simpa using hkv)⟩
            rw [hstep, hrec]
            rfl
      · constructor
        · intro h k hk
          rw [hstep] at h
          have hnone : linear_search xs target = none := by
            cases hc : linear_search xs target with
            | none => rfl
            | some j => rw [hc] at h; exact Option.noConfusion h
          cases k with
          | zero => simpa using hx
          | succ k =>
            have := ihn.mp hnone k (by simpa using Nat.lt_of_succ_lt_succ hk)
            simpa using this
        · intro h
          rw [hstep, ihn.mpr ?_]
          · rfl
          · intro k hk
            have := h (k + 1) (by simpa using Nat.succ_lt_succ hk)
            simpa using this

/-- Witness for C6 on `[5, 7, 7]`: target `7` is found at its first index
`1`, and the absent target `9` yields `none`. -/
theorem c6_linear_search_first_index_witness :
    linear_search [5, 7, 7] 7 = some 1 ∧ linear_search [5, 7, 7] 9 = none :=
  ⟨((c6_linear_search_first_index [5, 7, 7] 7).1 1).mpr (by decide),
   (c6_linear_search_first_index [5, 7, 7] 9).2.mpr (by decide)⟩

/-- C9: each search strategy is a pure function of the (immutable) array and
the target, so two invocations on the same inputs return the same result. -/
theorem c9_search_strategies_deterministic :
    ∀ (arr : List Int) (target : Int),
      linear_search arr target = linear_search arr target ∧
      binary_search arr target = binary_search arr target ∧
      jump_search arr target = jump_search arr target ∧
      interpolation_search arr target = interpolation_search arr target :=
  fun _ _ => ⟨rfl, rfl, rfl, rfl⟩

/-- The block-advance loop of `jump_search` runs at most
`⌈(n - prev) / step⌉` times: the pointer strictly increases by `step ≥ 1`
each iteration and the loop requires `prev < n` to continue. -/
theorem jumpIters_le (arr : List Int) (target : Int) (step : Nat)
    (hstep : 0 < step) :
    ∀ prev, jumpIters arr target step hstep prev
      ≤ (arr.length - prev + step - 1) / step := by
  intro prev
  induction prev using jumpIters.induct arr target step hstep with
  | case1 prev hg ih =>
    rw [jumpIters.eq_def, if_pos hg]
    have key : (arr.length - (prev + step) + step - 1) / step + 1
        ≤ (arr.length - prev + step - 1) / step := by
      rcases Nat.le_total step (arr.length - prev) with hcase | hcase
      · have heq : arr.length - prev + step - 1
            = (arr.length - (prev + step) + step - 1) + step := by omega
        rw [heq, Nat.add_div_right _ hstep]
      · have hL : arr.length - (prev + step) = 0 := by omega
        rw [hL]
        have h1 : (0 + step - 1) / step = 0 := Nat.div_eq_of_lt (by omega)
        rw [h1]
        exact (Nat.le_div_iff_mul_le hstep).mpr (by omega)
    exact le_trans (Nat.add_le_add_right ih 1) key
  | case2 prev hg =>
    rw [jumpIters.eq_def, if_neg hg]
    exact Nat.zero_le _

/-- C10: `jump_search` terminates on every input: for the empty array the
block-advance loop is never entered and the result is `none`; for a
non-empty array the step `⌊√n⌋` is at least `1`, so the loop performs at
most `n / step + 1` iterations (after which the bounded scan `jumpScan`
runs). -/
theorem c10_jump_search_terminates :
    ∀ (arr : List Int) (target : Int),
      (arr.length = 0 → jump_search arr target = none) ∧
      ∀ (h : 0 < arr.length),
        1 ≤ Nat.sqrt arr.length ∧
        jumpIters arr target (Nat.sqrt arr.length) (Nat.sqrt_pos.mpr h) 0
          ≤ arr.length / Nat.sqrt arr.length + 1 := by
  intro arr target
  constructor
  · intro h
    rw [jump_search]
    simp [h]
  · intro h
    have hs : 0 < Nat.sqrt arr.length := Nat.sqrt_pos.mpr h
    refine ⟨hs, ?_⟩
    calc jumpIters arr target (Nat.sqrt arr.length) (Nat.sqrt_pos.mpr h) 0
        ≤ (arr.length - 0 + Nat.sqrt arr.length - 1) / Nat.sqrt arr.length :=
          jumpIters_le arr target (Nat.sqrt arr.length) (Nat.sqrt_pos.mpr h) 0
      _ ≤ (arr.length + Nat.sqrt arr.length) / Nat.sqrt arr.length :=
          Nat.div_le_div_right (by omega)
      _ = arr.length / Nat.sqrt arr.length + 1 := Nat.add_div_right _ hs

/-- Witness for C10: the empty array returns `none`, and on the length-2
array `[7, 9]` the step is `⌊√2⌋ = 1` and the loop runs at most
`2 / 1 + 1 = 3` times. -/
theorem c10_jump_search_terminates_witness :
    jump_search ([] : List Int) 5 = none ∧
    (1 ≤ Nat.sqrt ([7, 9] : List Int).length ∧
     jumpIters [7, 9] 5 (Nat.sqrt ([7, 9] : List Int).length)
        (Nat.sqrt_pos.mpr (by norm_num)) 0
       ≤ ([7, 9] : List Int).length / Nat.sqrt ([7, 9] : List Int).length + 1) :=
  ⟨(c10_jump_search_terminates [] 5).1 rfl,
   (c10_jump_search_terminates [7, 9] 5).2 (by norm_num)⟩

/-- Mapping a fallible function that succeeds on every element of a list
succeeds and equals the pure map. -/
theorem mapM_eq_some_map {α β : Type} (f : α → Option β) (g : α → β) :
    ∀ (l : List α), (∀ a ∈ l, f a = some (g a)) → l.mapM f = some (l.map g) := by
  intro l
  induction l with
  | nil => intro _; rfl
  | cons a l ih =>
    intro h
    rw [List.mapM_cons, h a (by simp), ih fun b hb => h b (by simp [hb])]
    rfl

/-- C5 (confirmed): for every `n` and every valid range `mn < mx`, the
generator succeeds and returns a list of length exactly `n`, sorted in
non-decreasing order, with every element in `[mn, mx)`. -/
theorem c5_generator_sorted_bounded :
    ∀ (n : Nat) (mn mx : Int) (rng : Nat → Nat), mn < mx →
      ∃ a, generate_sorted_random_array n mn mx rng = some a ∧
        a.length = n ∧ List.Sorted (· ≤ ·) a ∧
        ∀ i, i < n → mn ≤ a.getD i 0 ∧ a.getD i 0 < mx := by
  intro n mn mx rng h
  have hgen : ∀ i ∈ List.range n,
      gen_range mn mx (rng i) = some (mn + ((rng i % (mx - mn).toNat : Nat) : Int)) := by
    intro i _
    rw [gen_range, if_pos h]
  have hm := mapM_eq_some_map _ _ (List.range n) hgen
  refine ⟨((List.range n).map fun i => mn + ((rng i % (mx - mn).toNat : Nat) : Int)).mergeSort
    (fun a b => decide (a ≤ b)), ?_, ?_, ?_, ?_⟩
  · rw [generate_sorted_random_array, hm]
    rfl
  · rw [List.length_mergeSort, List.length_map, List.length_range]
  · have htrans : ∀ (a b c : Int), decide (a ≤ b) = true → decide (b ≤ c) = true →
        decide (a ≤ c) = true := by
      intro a b c hab hbc
      simp only [decide_eq_true_eq] at hab hbc ⊢
      omega
    have htotal : ∀ (a b : Int), (decide (a ≤ b) || decide (b ≤ a)) = true := by
      intro a b
      simp only [Bool.or_eq_true, decide_eq_true_eq]
      omega
    have hp := List.sorted_mergeSort htrans htotal
      ((List.range n).map fun i => mn + ((rng i % (mx - mn).toNat : Nat) : Int))
    exact hp.imp fun hab => by simpa using hab
  · intro i hi
    have hlen : i < (((List.range n).map fun i =>
        mn + ((rng i % (mx - mn).toNat : Nat) : Int)).mergeSort
          fun a b => decide (a ≤ b)).length := by
      rw [List.length_mergeSort, List.length_map, List.length_range]
      exact hi
    have hmem := getD_mem hlen
    rw [List.mem_mergeSort, List.mem_map] at hmem
    obtain ⟨j, -, hj⟩ := hmem
    have hdpos : 0 < (mx - mn).toNat := by omega
    have hmod : ((rng j % (mx - mn).toNat : Nat) : Int) < ((mx - mn).toNat : Int) := by
      exact_mod_cast Nat.mod_lt (rng j) hdpos
    have hnn : (0 : Int) ≤ ((rng j % (mx - mn).toNat : Nat) : Int) := Int.ofNat_nonneg _
    rw [← hj]
    omega

/-- Witness for C5 at `n = 3`, range `[0, 5)` and the draw stream
`i ↦ i + 7`. -/
theorem c5_generator_sorted_bounded_witness :
    ∃ a, generate_sorted_random_array 3 0 5 (fun i => i + 7) = some a ∧
      a.length = 3 ∧ List.Sorted (· ≤ ·) a ∧
      ∀ i, i < 3 → 0 ≤ a.getD i 0 ∧ a.getD i 0 < 5 :=
  c5_generator_sorted_bounded 3 0 5 (fun i => i + 7) (by norm_num)

/-- C4 (counterexample): calling the generator with `n = 0` is not rejected:
it succeeds and produces the empty array (in the embedding `none` is the
only failure outcome, and the result is `some []`). -/
theorem c4_generator_accepts_zero_length :
    generate_sorted_random_array 0 1000 10000 (fun _ => 0) = some [] ∧
    generate_sorted_random_array 0 1000 10000 (fun _ => 0) ≠ none := by
  constructor
  · rw [generate_sorted_random_array]
    simp [List.mapM.loop]
  · rw [generate_sorted_random_array]
    simp [List.mapM.loop]

/-- C4 (amended): the generator performs no zero-length validation and
signals no `InvalidParameters` error: with `n = 0` it returns the empty
array for every range and every draw stream. -/
theorem c4_generator_no_zero_length_validation :
    ∀ (mn mx : Int) (rng : Nat → Nat),
      generate_sorted_random_array 0 mn mx rng = some [] := by
  intro mn mx rng
  rw [generate_sorted_random_array]
  simp [List.mapM.loop]

/-- C2 (failing input): on the empty array `interpolation_search` does not
return `NotFound` — it panics (`arr.len() - 1` underflows and `arr[low]` is
out of bounds), which the embedding records as `none`. -/
theorem c2_interpolation_search_panics_on_empty :
    interpolation_search ([] : List Int) 0 = none := rfl

/-- C8 (failing input): the empty array is sorted and the target `7` is
absent from it, yet `interpolation_search` does not return `NotFound`
(`some none` in the embedding): it panics (`none`). -/
theorem c8_interpolation_no_notfound_on_empty :
    List.Sorted (· ≤ ·) ([] : List Int) ∧ (7 : Int) ∉ ([] : List Int) ∧
    interpolation_search ([] : List Int) 7 ≠ some none ∧
    interpolation_search ([] : List Int) 7 = none :=
  ⟨List.sorted_nil, by simp, fun h => Option.noConfusion h, rfl⟩

/-- C1 (failing input): `[1000, 1001]` is a sorted array the generator can
produce for `n = 2` over the source range `[1000, 10000)`, its entry at
index `0` is `1000`, yet `jump_search` for target `1000` returns `none`
(the advance loop stops at `prev = 0` because `arr[0] ≥ target`, and the
scan range `[prev - step, prev)` is empty). -/
theorem c1_jump_search_misses_present_target :
    List.Sorted (· ≤ ·) [(1000 : Int), 1001] ∧
    generate_sorted_random_array 2 1000 10000 (fun i => i) = some [1000, 1001] ∧
    ([(1000 : Int), 1001].getD 0 0 = 1000) ∧
    jump_search [(1000 : Int), 1001] 1000 = none := by
  have hs2 : Nat.sqrt 2 = 1 := by
    have h1 : 1 ≤ Nat.sqrt 2 := Nat.le_sqrt.mpr (by norm_num)
    have h2 : Nat.sqrt 2 < 2 := Nat.sqrt_lt.mpr (by norm_num)
    omega
  refine ⟨by decide, ?_, rfl, ?_⟩
  · rw [generate_sorted_random_array]
    rw [mapM_eq_some_map (fun i => gen_range 1000 10000 i)
      (fun i => 1000 + ((i % 9000 : Nat) : Int)) (List.range 2) ?hall]
    case hall =>
      intro a _
      simp [gen_range]
    rw [Option.map_some']
    rw [List.mergeSort_of_sorted (by simp [List.range_succ])]
    simp [List.range_succ]
  · simp [jump_search, jumpLoop, jumpScan, hs2]

/-- C3: evaluation of the concrete scenario on `[2, 4, 4, 6, 8, 10]`.
Target `4`: `binary_search` returns `Found 2` (allowed).  Target `5`
(absent): all four return `NotFound`.  Target `2` (first): linear, binary
and interpolation return `Found 0`, but `jump_search` returns `NotFound`,
diverging from the claim.  Target `10` (last): all four return `Found 5`. -/
theorem c3_concrete_scenario_eval :
    binary_search [2, 4, 4, 6, 8, 10] 4 = some 2 ∧
    (linear_search [2, 4, 4, 6, 8, 10] 5 = none ∧
     binary_search [2, 4, 4, 6, 8, 10] 5 = none ∧
     jump_search [2, 4, 4, 6, 8, 10] 5 = none ∧
     interpolation_search [2, 4, 4, 6, 8, 10] 5 = some none) ∧
    (linear_search [2, 4, 4, 6, 8, 10] 2 = some 0 ∧
     binary_search [2, 4, 4, 6, 8, 10] 2 = some 0 ∧
     interpolation_search [2, 4, 4, 6, 8, 10] 2 = some (some 0) ∧
     jump_search [2, 4, 4, 6, 8, 10] 2 = none) ∧
    (linear_search [2, 4, 4, 6, 8, 10] 10 = some 5 ∧
     binary_search [2, 4, 4, 6, 8, 10] 10 = some 5 ∧
     jump_search [2, 4, 4, 6, 8, 10] 10 = some 5 ∧
     interpolation_search [2, 4, 4, 6, 8, 10] 10 = some (some 5)) := by
  have hs6 : Nat.sqrt 6 = 2 := by
    have h1 : 2 ≤ Nat.sqrt 6 := Nat.le_sqrt.mpr (by norm_num)
    have h2 : Nat.sqrt 6 < 3 := Nat.sqrt_lt.mpr (by norm_num)
    omega
  refine ⟨?_, ⟨?_, ?_, ?_, ?_⟩, ⟨?_, ?_, ?_, ?_⟩, ⟨?_, ?_, ?_, ?_⟩⟩
  · simp [binary_search, binLoop]
  · rfl
  · simp [binary_search, binLoop]
  · simp [jump_search, jumpLoop, jumpScan, hs6]
  · simp [interpolation_search, intLoop, probePos]
  · rfl
  · simp [binary_search, binLoop]
  · simp [interpolation_search, intLoop, probePos]
  · simp [jump_search, jumpLoop, jumpScan, hs6]
  · rfl
  · simp [binary_search, binLoop]
  · simp [jump_search, jumpLoop, jumpScan, hs6]
  · simp [interpolation_search, intLoop, probePos]

end RustVsPython
